import Mathlib

/-!
Shallow embedding of the chapter-detection and segmentation-planning core of
the Audiobook Chapter Splitter (src/run.py): numeral resolution
(roman_to_int and the int / word-number / roman try-chain), title extraction
(extract_title_from_text), SRT marker scanning (parse_srt_for_chapters),
chapter sequencing (process_chapter_gaps), cut-plan construction (the
segmentation loop of main), and the chapter-cache load/save logic of main.
Transcript text is modelled at the level of cue blocks already split into
lines; timestamps are exact rationals, matching the exact integer arithmetic
of srt_time_to_seconds.
-/

namespace AudioSplit

/-- Sentence-ending punctuation used by extract_title_from_text: '.', '?', '!'. -/
def isSentPunct (c : Char) : Bool := c == '.' || c == '?' || c == '!'

/-- Token punctuation stripped by the scanner's strip of the set ".,?!". -/
def isTokPunct (c : Char) : Bool := c == '.' || c == ',' || c == '?' || c == '!'

/-- Drop trailing characters satisfying p, as Python str.rstrip over a set. -/
def dropTrail (p : Char → Bool) (cs : List Char) : List Char :=
  ((cs.reverse).dropWhile p).reverse

/-- Python str.strip over the character class p: drop from both ends. -/
def pyStripP (p : Char → Bool) (s : String) : String :=
  String.mk (dropTrail p (s.data.dropWhile p))

/-- Python str.strip() with no argument: strip whitespace from both ends. -/
def pyStripWS (s : String) : String := pyStripP Char.isWhitespace s

/-- Python str.rstrip over the character class p. -/
def pyRstripP (p : Char → Bool) (s : String) : String := String.mk (dropTrail p s.data)

/-- Worker for pySplitWS: accumulate the current word (reversed) while
splitting at whitespace runs, discarding empty words. -/
def splitWSGo (cur : List Char) : List Char → List String
  | [] => if cur.isEmpty then [] else [String.mk cur.reverse]
  | c :: rest =>
      if c.isWhitespace then
        if cur.isEmpty then splitWSGo [] rest
        else String.mk cur.reverse :: splitWSGo [] rest
      else splitWSGo (c :: cur) rest

/-- Python str.split() with no argument: split on whitespace runs, no empties. -/
def pySplitWS (s : String) : List String := splitWSGo [] s.data

/-- Lowercase every character, as Python str.lower() on ASCII text. -/
def strLower (s : String) : String := String.mk (s.data.map Char.toLower)

/-- Uppercase every character, as Python str.upper() on ASCII text (used by
roman_to_int's s.upper()). -/
def strUpper (s : String) : String := String.mk (s.data.map Char.toUpper)

/-- Character-list test: the first list occurs at the head of the second. -/
def startsWithL : List Char → List Char → Bool
  | [], _ => true
  | _ :: _, [] => false
  | a :: as, b :: bs => a == b && startsWithL as bs

/-- Character-list substring occurrence test. -/
def hasSubL (needle : List Char) : List Char → Bool
  | [] => needle.isEmpty
  | c :: rest => startsWithL needle (c :: rest) || hasSubL needle rest

/-- Python's substring containment test "needle in hay". -/
def strHasSub (hay needle : String) : Bool := hasSubL needle.data hay.data

/-- Accumulate a decimal value over digit characters; none on a non-digit. -/
def digitsValGo (acc : Nat) : List Char → Option Nat
  | [] => some acc
  | c :: rest => if c.isDigit then digitsValGo (acc * 10 + (c.toNat - 48)) rest else none

/-- Python int(str): optional surrounding whitespace, optional sign, then a
nonempty run of decimal digits; none models the ValueError branch. -/
def pyIntOfStr (s : String) : Option Int :=
  match (pyStripWS s).data with
  | [] => none
  | '+' :: rest =>
      if rest.isEmpty then none else (digitsValGo 0 rest).map (fun n => (n : Int))
  | '-' :: rest =>
      if rest.isEmpty then none else (digitsValGo 0 rest).map (fun n => -(n : Int))
  | cs => (digitsValGo 0 cs).map (fun n => (n : Int))

/-- Modelled from the spec: the spelled-out cardinal vocabulary of the external
word-to-number collaborator (the w2n library is not part of this repository),
restricted to the single-token lookups the scanner performs — the spec notes
multi-word phrases are only resolved when the caller supplies the full phrase,
and the scanner feeds single tokens. -/
def wordNumTable : List (String × Int) :=
  [("zero", 0), ("one", 1), ("two", 2), ("three", 3), ("four", 4), ("five", 5),
   ("six", 6), ("seven", 7), ("eight", 8), ("nine", 9), ("ten", 10),
   ("eleven", 11), ("twelve", 12), ("thirteen", 13), ("fourteen", 14),
   ("fifteen", 15), ("sixteen", 16), ("seventeen", 17), ("eighteen", 18),
   ("nineteen", 19), ("twenty", 20), ("thirty", 30), ("forty", 40),
   ("fifty", 50), ("sixty", 60), ("seventy", 70), ("eighty", 80),
   ("ninety", 90), ("hundred", 100), ("thousand", 1000),
   ("million", 1000000), ("billion", 1000000000)]

/-- Modelled from the spec: w2n.word_to_num on a single token — lowercase
lookup in the cardinal vocabulary, none models its ValueError. -/
def wordToNum (s : String) : Option Int :=
  wordNumTable.lookup (strLower s)

/-- Value map of roman_to_int's roman_map dictionary; none models the KeyError
raised on a character outside the map. -/
def romanVal : Char → Option Int
  | 'I' => some 1
  | 'V' => some 5
  | 'X' => some 10
  | 'L' => some 50
  | 'C' => some 100
  | 'D' => some 500
  | 'M' => some 1000
  | _ => none

/-- Running-total loop of roman_to_int: prev is the previous character's value
(0 before the first character, which makes the first step add its plain value
exactly as the i = 0 branch of the source does). -/
def romanGo (prev acc : Int) : List Char → Option Int
  | [] => some acc
  | c :: rest =>
      match romanVal c with
      | none => none
      | some v => romanGo v (if prev < v then acc + v - 2 * prev else acc + v) rest

/-- roman_to_int of src/run.py lines 191-201: uppercase, then left-to-right
running total that subtracts twice the predecessor when a digit exceeds it.
Returns some value, or none for the KeyError on an unmapped character; note
the empty string yields some 0 (the source's loop body never runs). -/
def roman_to_int (s : String) : Option Int :=
  romanGo 0 0 (strUpper s).data

/-- Numeral try-chain of parse_srt_for_chapters lines 249-259: decimal int,
then word-number lookup, then roman numeral; none models the final continue
after all three grammars fail. -/
def resolveNumeral (tok : String) : Option Int :=
  match pyIntOfStr tok with
  | some n => some n
  | none =>
      match wordToNum tok with
      | some n => some n
      | none => roman_to_int tok

/-- Exact rational multiplication in a form the kernel evaluates (the library
multiplication on ℚ is irreducible); proved equal to it in qMul_eq. -/
def qMul (a b : ℚ) : ℚ := Rat.divInt (a.num * b.num) ((a.den : Int) * (b.den : Int))

/-- Exact rational addition in kernel-evaluable form; proved equal to the
library addition in qAdd_eq. -/
def qAdd (a b : ℚ) : ℚ :=
  Rat.divInt (a.num * (b.den : Int) + b.num * (a.den : Int)) ((a.den : Int) * (b.den : Int))

/-- Exact rational division in kernel-evaluable form. -/
def qDiv (a b : ℚ) : ℚ := Rat.divInt (a.num * (b.den : Int)) ((a.den : Int) * b.num)

theorem qMul_eq (a b : ℚ) : qMul a b = a * b := by
  rw [Rat.mul_def, Rat.normalize_eq_mkRat, Rat.mkRat_eq_divInt, qMul]
  push_cast
  rfl

theorem qAdd_eq (a b : ℚ) : qAdd a b = a + b := by
  rw [Rat.add_def', Rat.mkRat_eq_divInt, qAdd]
  push_cast
  rfl

/-- Abbreviation set of extract_title_from_text whose members do not end a
sentence despite a trailing period. -/
def ABBREVIATIONS : List String :=
  ["mr", "mrs", "ms", "dr", "prof", "st", "vol", "no", "etc", "rev", "capt"]

/-- Sentence splitting of extract_title_from_text: the regex split at a
whitespace run whose immediately preceding character is '.', '?' or '!'
(the lookbehind), the run itself being consumed. cur holds the current
fragment reversed; skipping is true while consuming a delimiter run. -/
def sentSplitGo (skipping : Bool) (cur : List Char) : List Char → List (List Char)
  | [] => [cur.reverse]
  | c :: rest =>
      if skipping then
        if c.isWhitespace then sentSplitGo true cur rest
        else sentSplitGo false [c] rest
      else
        if c.isWhitespace && (match cur with | p :: _ => isSentPunct p | [] => false) then
          cur.reverse :: sentSplitGo true [] rest
        else sentSplitGo false (c :: cur) rest

/-- Split a string into sentence fragments as re.split with the punctuation
lookbehind does, including a trailing empty fragment when the text ends in a
delimiter run. -/
def sentSplit (s : String) : List String :=
  (sentSplitGo false [] s.data).map String.mk

/-- Accumulation loop of extract_title_from_text: append each fragment, then
stop unless the fragment's last word (trailing sentence punctuation removed)
is an abbreviation or a single alphabetic character; also stop right after
appending a fragment with no words. -/
def titleAccum : List String → List String
  | [] => []
  | sentence :: rest =>
      let ws := pySplitWS (pyRstripP isSentPunct sentence)
      match ws.getLast? with
      | none => [sentence]
      | some lw =>
          let l := strLower lw
          if ABBREVIATIONS.contains l || (l.length == 1 && l.data.all Char.isAlpha) then
            sentence :: titleAccum rest
          else [sentence]

/-- extract_title_from_text of src/run.py lines 203-227: split into sentence
fragments, accumulate greedily past abbreviations and initials, join with
single spaces, strip, remove trailing sentence punctuation, strip again. -/
def extract_title_from_text (text : String) : String :=
  if text == "" then ""
  else
    let parts := titleAccum (sentSplit text)
    pyStripWS (pyRstripP isSentPunct (pyStripWS (String.intercalate " " parts)))

/-- Cleaning applied to a candidate announcement word before comparison with
"chapter": word.lower().strip of ".,?!". -/
def cleanWord (w : String) : String := pyStripP isTokPunct (strLower w)

/-- Cleaning applied to the token following "chapter" before numeral
resolution: words[i+1].strip().lower().strip of ".,?!". -/
def cleanTok (w : String) : String := pyStripP isTokPunct (strLower (pyStripWS w))

/-- Raw chapter candidate built by the marker scanner: the chapter_info dict
of parse_srt_for_chapters with its number, start_time, and the title key
present exactly when title extraction is enabled. -/
structure Candidate where
  number : Int
  start_time : ℚ
  title : Option String
deriving DecidableEq, Repr

/-- Word loop of parse_srt_for_chapters lines 245-259: walk the cue's words;
at a word cleaning to "chapter" that has a successor, try to resolve the
successor; on success stop and return the number with the words after the
token, on failure continue with the next word (the source's continue). -/
def findChapterNum : List String → Option (Int × List String)
  | [] => none
  | [_] => none
  | w :: nxt :: rest =>
      if cleanWord w == "chapter" then
        match resolveNumeral (cleanTok nxt) with
        | some n => some (n, rest)
        | none => findChapterNum (nxt :: rest)
      else findChapterNum (nxt :: rest)

/-- Python str.split on a single separator character, keeping empty pieces. -/
def splitCharGo (sepc : Char) (cur : List Char) : List Char → List (List Char)
  | [] => [cur.reverse]
  | c :: rest =>
      if c == sepc then cur.reverse :: splitCharGo sepc [] rest
      else splitCharGo sepc (c :: cur) rest

/-- Split a string at every occurrence of one separator character. -/
def splitChar (sepc : Char) (s : String) : List String :=
  (splitCharGo sepc [] s.data).map String.mk

/-- Everything before the first occurrence of sep, or the whole list when sep
does not occur: Python's s.split(sep)[0] for a multi-character sep. -/
def takeUntilSep (sep : List Char) : List Char → List Char
  | [] => []
  | c :: rest =>
      if startsWithL sep (c :: rest) then [] else c :: takeUntilSep sep rest

/-- srt_time_to_seconds of src/run.py lines 185-189 as exact rational
arithmetic: h * 3600 + m * 60 + s + ms / 1000; none models the ValueError on
a malformed timestamp, which the source's surrounding try catches. -/
def srt_time_to_seconds (t : String) : Option ℚ :=
  match splitChar ':' t with
  | [h, m, sms] =>
      match splitChar ',' sms with
      | [s, ms] =>
          match pyIntOfStr h, pyIntOfStr m, pyIntOfStr s, pyIntOfStr ms with
          | some hv, some mv, some sv, some msv =>
              some (qAdd (qAdd (qAdd (qMul (hv : ℚ) 3600) (qMul (mv : ℚ) 60)) (sv : ℚ))
                (qDiv (msv : ℚ) 1000))
          | _, _, _, _ => none
      | _ => none
  | _ => none

/-- Text content of a cue block: " ".join(lines[2:]). -/
def blockText (lines : List String) : String :=
  String.intercalate " " (lines.drop 2)

/-- Per-block body of parse_srt_for_chapters lines 239-282, at the level of a
block already split into lines, with the following block's lines supplied for
the title look-ahead. Returns Except.error when the block raises (malformed
timestamp), aborting the scan of the remaining blocks as the source's outer
try does; Except.ok none when the block yields no candidate. -/
def scanBlock (extract_title : Bool) (lines : List String)
    (nextLines : Option (List String)) : Except Unit (Option Candidate) :=
  if lines.length < 3 then .ok none
  else if strHasSub (strLower (blockText lines)) "chapter" then
    match findChapterNum (pySplitWS (blockText lines)) with
    | none => .ok none
    | some (n, rest) =>
        match srt_time_to_seconds
            (String.mk (takeUntilSep " --> ".data (lines.getD 1 "").data)) with
        | none => .error ()
        | some t =>
            if extract_title then
              let t0 := pyStripWS (String.intercalate " " rest)
              let t1 :=
                if t0 == "" then
                  match nextLines with
                  | some nb =>
                      if 3 ≤ nb.length then pyStripWS (String.intercalate " " (nb.drop 2))
                      else t0
                  | none => t0
                else t0
              .ok (some ⟨n, t, some (extract_title_from_text t1)⟩)
            else .ok (some ⟨n, t, none⟩)
  else .ok none

/-- Block loop of parse_srt_for_chapters: collect at most one candidate per
block; an exception keeps the candidates gathered so far and stops scanning. -/
def scanBlocks (extract_title : Bool) : List (List String) → List Candidate
  | [] => []
  | lines :: rest =>
      match scanBlock extract_title lines rest.head? with
      | .error _ => []
      | .ok none => scanBlocks extract_title rest
      | .ok (some c) => c :: scanBlocks extract_title rest

/-- Sort key relation of chapters.sort(key=lambda x: x["number"]). -/
def numberLe (a b : Candidate) : Prop := a.number ≤ b.number

instance : DecidableRel numberLe := fun a b => inferInstanceAs (Decidable (a.number ≤ b.number))

instance : IsTotal Candidate numberLe := ⟨fun a b => le_total a.number b.number⟩

instance : IsTrans Candidate numberLe := ⟨fun _ _ _ h1 h2 => le_trans h1 h2⟩

/-- Stable sort by chapter number, as the source's chapters.sort at line 286
(Python's sort is stable; insertion sort by a total preorder is the same
stable sort). -/
def sortByNumber (l : List Candidate) : List Candidate := l.insertionSort numberLe

/-- parse_srt_for_chapters at the cue-block level: scan every block, then
sort the collected candidates by number. -/
def parse_srt_for_chapters (extract_title : Bool) (blocks : List (List String)) :
    List Candidate :=
  sortByNumber (scanBlocks extract_title blocks)

/-- Left-pad with zeros to the given width, as the digit part of format 03. -/
def pad0 (w : Nat) (s : String) : String :=
  if s.length < w then String.mk (List.replicate (w - s.length) '0') ++ s else s

/-- Python format specifier 03 on an integer: total width 3 including a minus
sign, zero-padded between sign and digits. -/
def pad3 (n : Int) : String :=
  if n < 0 then "-" ++ pad0 2 (toString n.natAbs) else pad0 3 (toString n.natAbs)

/-- Label of one chapter given the next chapter when there is one: the gap
branch of process_chapter_gaps lines 330-335. -/
def chapterLabel (c : Candidate) : Option Candidate → String
  | none => pad3 c.number
  | some nxt =>
      if c.number + 1 < nxt.number then pad3 c.number ++ "-" ++ pad3 (nxt.number - 1)
      else pad3 c.number

/-- Processed chapter dict appended by process_chapter_gaps: start_time,
title (defaulted to the empty string), and the display label number_str. -/
structure PChapter where
  start_time : ℚ
  title : String
  number_str : String
deriving DecidableEq, Repr

/-- Indexed loop of process_chapter_gaps: isFirst marks index 0, whose start
time is forced to 0; the next chapter is the head of the remaining list and
is absent exactly at the last index. -/
def processAux (isFirst : Bool) : List Candidate → List PChapter
  | [] => []
  | c :: rest =>
      ⟨if isFirst then 0 else c.start_time, c.title.getD "", chapterLabel c rest.head?⟩
        :: processAux false rest

/-- process_chapter_gaps of src/run.py lines 314-343. -/
def process_chapter_gaps (chapters : List Candidate) : List PChapter :=
  processAux true chapters

/-- Chapter sequencing as the pipeline performs it: the sort of
parse_srt_for_chapters followed by process_chapter_gaps. -/
def sequenceChapters (cands : List Candidate) : List PChapter :=
  process_chapter_gaps (sortByNumber cands)

/-- Python int() applied to a rational: truncation toward zero. -/
def pyTrunc (q : ℚ) : Int := if q < 0 then ⌈q⌉ else ⌊q⌋

/-- Clip start of one segment, main line 489: 0 when the chapter's start time
is exactly 0.0, otherwise max(0, int(start_time * 1000) - 500). -/
def clipStart (st : ℚ) : Int := if st = 0 then 0 else max 0 (pyTrunc (qMul st 1000) - 500)

/-- Characters removed by sanitize_filename's first substitution. -/
def illegalChar (c : Char) : Bool :=
  c == '\\' || c == '/' || c == '*' || c == '?' || c == ':' || c == '"' ||
    c == '<' || c == '>' || c == '|'

/-- Collapse every whitespace run to a single '.', as the second substitution
of sanitize_filename; inRun is true inside a run already replaced. -/
def collapseWSGo (inRun : Bool) : List Char → List Char
  | [] => []
  | c :: rest =>
      if c.isWhitespace then
        if inRun then collapseWSGo true rest else '.' :: collapseWSGo true rest
      else c :: collapseWSGo false rest

/-- sanitize_filename of src/run.py lines 308-312: remove illegal characters,
collapse whitespace runs to single dots, strip leading and trailing dots,
truncate to 100 characters. -/
def sanitize_filename (name : String) : String :=
  let s1 := name.data.filter (fun c => !illegalChar c)
  let s2 := collapseWSGo false s1
  (String.mk (dropTrail (fun c => c == '.') (s2.dropWhile (fun c => c == '.')))).take 100

/-- One cut-plan entry of the segmentation loop: millisecond start and end
offsets plus the output filename. -/
structure Segment where
  start_ms : Int
  end_ms : Int
  filename : String
deriving DecidableEq, Repr

/-- Output filename built at main lines 494-498. -/
def segFileName (extract_title : Bool) (c : PChapter) : String :=
  if extract_title then c.number_str ++ "." ++ sanitize_filename c.title ++ ".mp3"
  else c.number_str ++ ".mp3"

/-- One iteration of the segmentation loop at main lines 485-500, given the
next boundary's start time. -/
def segFor (extract_title : Bool) (c : PChapter) (next_start : ℚ) : Segment :=
  ⟨clipStart c.start_time, pyTrunc (qMul next_start 1000), segFileName extract_title c⟩

/-- Segmentation loop over consecutive pairs of the processed chapters padded
with the synthetic end sentinel at total_duration_sec (main lines 482-500):
the last real chapter is paired with the sentinel's start time. -/
def buildCutPlanGo (extract_title : Bool) (total : ℚ) : List PChapter → List Segment
  | [] => []
  | [c] => [segFor extract_title c total]
  | c :: nxt :: rest =>
      segFor extract_title c nxt.start_time :: buildCutPlanGo extract_title total (nxt :: rest)

/-- Cut plan of main for a processed chapter list and a total duration. -/
def buildCutPlan (extract_title : Bool) (total : ℚ) (processed : List PChapter) :
    List Segment :=
  buildCutPlanGo extract_title total processed

/-- Shape flag of the cached chapter list, main line 412: Python's
"chapters and 'title' in chapters[0]" — an empty cached list compares unequal
to both policies there, but the load result is the empty list either way, so
the false returned here for an empty list yields the same loaded chapters. -/
def cache_has_title : List Candidate → Bool
  | [] => false
  | c :: _ => c.title.isSome

/-- Cache load of main lines 407-420 on the stored state: a missing file or a
title-shape mismatch with the configured policy yields no chapters. -/
def cache_load (stored : Option (List Candidate)) (extract_title : Bool) :
    List Candidate :=
  match stored with
  | none => []
  | some chs => if cache_has_title chs != extract_title then [] else chs

/-- Cache save of main lines 463-469 on the stored state: write only when
chapters were found and no cache file exists yet. -/
def cache_save (stored : Option (List Candidate)) (chapters : List Candidate) :
    Option (List Candidate) :=
  if chapters ≠ [] ∧ stored = none then some chapters else stored

/-! Supporting lemmas about sequencing. -/

theorem processAux_length (fl : Bool) (l : List Candidate) :
    (processAux fl l).length = l.length := by
  induction l generalizing fl with
  | nil => rfl
  | cons c rest ih => simp [processAux, ih]

theorem processAux_get? (fl : Bool) (l : List Candidate) (i : ℕ) (c : Candidate)
    (h : l.get? i = some c) :
    (processAux fl l).get? i =
      some ⟨if fl = true ∧ i = 0 then 0 else c.start_time, c.title.getD "",
        chapterLabel c (l.get? (i + 1))⟩ := by
  induction l generalizing fl i with
  | nil => simp at h
  | cons a rest ih =>
      cases i with
      | zero =>
          simp only [List.get?_cons_zero, Option.some_inj] at h
          subst h
          cases fl <;> simp [processAux, List.get?_cons_succ, List.get?_zero] <;>
            (cases rest <;> simp)
      | succ i =>
          simp only [List.get?_cons_succ] at h
          simpa [processAux, List.get?_cons_succ] using ih false i h

theorem processAux_getLast_label (fl : Bool) (l : List Candidate) (hne : l ≠ []) :
    ((processAux fl l).getLast?).map (fun p => p.number_str)
      = l.getLast?.map (fun c => pad3 c.number) := by
  have hpos : 0 < l.length := List.length_pos.2 hne
  have hlt : l.length - 1 < l.length := by omega
  have hc : l.get? (l.length - 1) = some (l.get ⟨l.length - 1, hlt⟩) := List.get?_eq_get hlt
  have hnone : l.get? (l.length - 1 + 1) = none := by
    apply List.get?_eq_none.2
    omega
  rw [List.getLast?_eq_get?, List.getLast?_eq_get?, processAux_length,
    processAux_get? fl l _ _ hc, hc, hnone]
  simp [chapterLabel]

theorem sortByNumber_sorted (l : List Candidate) :
    List.Sorted numberLe (sortByNumber l) :=
  List.sorted_insertionSort numberLe l

theorem sortByNumber_perm (l : List Candidate) : (sortByNumber l).Perm l :=
  List.perm_insertionSort numberLe l

theorem sortByNumber_ne_nil (l : List Candidate) (hne : l ≠ []) :
    sortByNumber l ≠ [] := by
  intro h
  exact hne (((h ▸ sortByNumber_perm l).symm).eq_nil)

/-! Claim theorems. -/

/-- C1: for every non-empty candidate list sorted ascending by chapter number,
process_chapter_gaps labels the last chapter with its own zero-padded number,
and every earlier chapter with "own-(next-1)" when the next number exceeds its
own by more than 1 and with its own zero-padded number otherwise; candidates
numbered [1, 2, 5] get labels ["001", "002-004", "005"]. -/
theorem c1_sequencer_gap_labels :
    (∀ l : List Candidate, l ≠ [] → List.Sorted numberLe l →
      ((process_chapter_gaps l).getLast?).map (fun p => p.number_str)
          = l.getLast?.map (fun c => pad3 c.number)
      ∧ (∀ i a b, l.get? i = some a → l.get? (i + 1) = some b →
          ((process_chapter_gaps l).get? i).map (fun p => p.number_str)
            = some (if a.number + 1 < b.number
                then pad3 a.number ++ "-" ++ pad3 (b.number - 1)
                else pad3 a.number)))
    ∧ (process_chapter_gaps [⟨1, 0, none⟩, ⟨2, 7, none⟩, ⟨5, 9, none⟩]).map
        (fun p => p.number_str) = ["001", "002-004", "005"] := by
  constructor
  · intro l hne _
    constructor
    · exact processAux_getLast_label true l hne
    · intro i a b ha hb
      rw [process_chapter_gaps, processAux_get? true l i a ha, hb]
      simp [chapterLabel]
  · decide

/-- C1 witness: the general part instantiated at candidates numbered [1, 2, 5]
sorted ascending, middle label "002-004" and last label "005". -/
theorem c1_sequencer_gap_labels_witness :
    ((process_chapter_gaps [⟨1, 0, none⟩, ⟨2, 7, none⟩, ⟨5, 9, none⟩]).get? 1).map
        (fun p => p.number_str)
      = some (if (2 : Int) + 1 < 5 then pad3 2 ++ "-" ++ pad3 4 else pad3 2)
    ∧ ((process_chapter_gaps [⟨1, 0, none⟩, ⟨2, 7, none⟩, ⟨5, 9, none⟩]).getLast?).map
        (fun p => p.number_str)
      = ([⟨1, 0, none⟩, ⟨2, 7, none⟩, ⟨5, 9, none⟩] : List Candidate).getLast?.map
        (fun c => pad3 c.number) := by
  have h := c1_sequencer_gap_labels.1 [⟨1, 0, none⟩, ⟨2, 7, none⟩, ⟨5, 9, none⟩]
    (by decide) (by decide)
  exact ⟨h.2 1 ⟨2, 7, none⟩ ⟨5, 9, none⟩ (by decide) (by decide), h.1⟩

/-- C2 counterexample: extract_title_from_text applied to
"Mr. Smith went home. He left." does not return "Mr. Smith went home. He left":
the fragment "Smith went home." already ends in the non-abbreviation word
"home", so accumulation stops there and "He left." is never appended. -/
theorem c2_title_extractor_counterexample :
    extract_title_from_text "Mr. Smith went home. He left."
      ≠ "Mr. Smith went home. He left" := by
  decide

/-- C2 amended: extract("Mr. Smith went home. He left.") returns
"Mr. Smith went home" — accumulation continues past the fragment ending in the
abbreviation "Mr." and stops after "Smith went home.", the first true sentence
end, with the trailing period stripped. -/
theorem c2_title_extractor_amended :
    extract_title_from_text "Mr. Smith went home. He left." = "Mr. Smith went home" := by
  decide

/-- C5 counterexample: sequencing the duplicate-numbered candidates
[1 at 0s, 1 at 10s] keeps both entries — the sorted numbers are [1, 1], which
is not strictly increasing, and the canonical list has two chapters with the
same label "001", so later duplicates are not dropped. -/
theorem c5_duplicates_counterexample :
    (sortByNumber [⟨1, 0, none⟩, ⟨1, 10, none⟩]).map (fun c => c.number) = [1, 1]
    ∧ sequenceChapters [⟨1, 0, none⟩, ⟨1, 10, none⟩]
        = [⟨0, "", "001"⟩, ⟨10, "", "001"⟩] := by
  exact ⟨by decide, by decide⟩

/-- C5 amended: sequencing sorts candidates into nondecreasing (not strictly
increasing) number order, the sorted list is a permutation of the input (no
candidate is dropped, first-seen order kept among equals by stability), and
the canonical list has exactly as many chapters as there were candidates. -/
theorem c5_sequencing_amended :
    ∀ cands : List Candidate,
      List.Sorted numberLe (sortByNumber cands)
      ∧ ((sortByNumber cands).Perm cands)
      ∧ (sequenceChapters cands).length = cands.length := by
  intro cands
  refine ⟨sortByNumber_sorted cands, sortByNumber_perm cands, ?_⟩
  rw [sequenceChapters, process_chapter_gaps, processAux_length]
  exact (sortByNumber_perm cands).length_eq

/-- C6: the numeral resolver returns 12 for "12", "twelve" and "XII", 9 for
"nine" and "IX", and fails on "foo"; the case-insensitive roman grammar
reproduces I=1 through M=1000 and the composites IX=9 and XL=40. -/
theorem c6_numeral_resolver_values :
    resolveNumeral "12" = some 12 ∧ resolveNumeral "twelve" = some 12
    ∧ resolveNumeral "XII" = some 12 ∧ resolveNumeral "nine" = some 9
    ∧ resolveNumeral "IX" = some 9 ∧ resolveNumeral "foo" = none
    ∧ roman_to_int "I" = some 1 ∧ roman_to_int "V" = some 5
    ∧ roman_to_int "X" = some 10 ∧ roman_to_int "L" = some 50
    ∧ roman_to_int "C" = some 100 ∧ roman_to_int "D" = some 500
    ∧ roman_to_int "M" = some 1000 ∧ roman_to_int "IX" = some 9
    ∧ roman_to_int "XL" = some 40 ∧ roman_to_int "xii" = roman_to_int "XII" := by
  decide

/-- C8: the chapter sorted into position 0 of the canonical list has its start
time overwritten to 0 regardless of its detected timestamp, and every chapter
at a later position retains its detected start time. -/
theorem c8_first_chapter_start_override :
    ∀ cands : List Candidate, cands ≠ [] →
      ((sequenceChapters cands).head?).map (fun p => p.start_time) = some 0
      ∧ (∀ i c, 0 < i → (sortByNumber cands).get? i = some c →
          ((sequenceChapters cands).get? i).map (fun p => p.start_time)
            = some c.start_time) := by
  intro cands hne
  constructor
  · cases hs : sortByNumber cands with
    | nil => exact absurd hs (sortByNumber_ne_nil cands hne)
    | cons a rest => simp [sequenceChapters, process_chapter_gaps, hs, processAux]
  · intro i c hi hget
    rw [sequenceChapters, process_chapter_gaps, processAux_get? true _ i c hget]
    simp [hi.ne']

/-- C8 witness: a single candidate detected at 12.3 seconds is forced to start
at 0; in a two-candidate list the second chapter keeps its detected 5 seconds. -/
theorem c8_first_chapter_start_override_witness :
    ((sequenceChapters [⟨1, Rat.divInt 123 10, none⟩]).head?).map (fun p => p.start_time)
      = some 0
    ∧ ((sequenceChapters [⟨1, 7, none⟩, ⟨2, 5, none⟩]).get? 1).map (fun p => p.start_time)
      = some (5 : ℚ) := by
  constructor
  · exact (c8_first_chapter_start_override [⟨1, Rat.divInt 123 10, none⟩] (by decide)).1
  · exact (c8_first_chapter_start_override [⟨1, 7, none⟩, ⟨2, 5, none⟩] (by decide)).2
      1 ⟨2, 5, none⟩ (by decide) (by decide)

/-- C9: the chapter cache is write-once — saving is a no-op when a cache
already exists — and loading under a title-extraction policy that disagrees
with the cached records' title flag yields no chapters, so chapters saved with
titles and loaded under a no-titles policy are not returned. -/
theorem c9_cache_write_once_shape :
    (∀ (stored : Option (List Candidate)) (chapters : List Candidate),
        stored ≠ none → cache_save stored chapters = stored)
    ∧ (∀ chs : List Candidate, cache_has_title chs = true →
        cache_load (some chs) false = [])
    ∧ (∀ chs : List Candidate, chs ≠ [] → cache_has_title chs = true →
        cache_load (cache_save none chs) false = []) := by
  refine ⟨?_, ?_, ?_⟩
  · intro stored chapters hst
    rw [cache_save, if_neg]
    rintro ⟨-, h⟩
    exact hst h
  · intro chs h
    simp [cache_load, h]
  · intro chs hne h
    rw [cache_save, if_pos ⟨hne, rfl⟩]
    simp [cache_load, h]

/-- C9 witness: an existing cache is kept unchanged by a save, and chapters
saved with titles then loaded under the no-titles policy come back absent. -/
theorem c9_cache_write_once_shape_witness :
    cache_save (some [⟨1, 0, some "t"⟩]) [⟨2, 3, none⟩] = some [⟨1, 0, some "t"⟩]
    ∧ cache_load (cache_save none [⟨1, 0, some "t"⟩]) false = [] := by
  constructor
  · exact c9_cache_write_once_shape.1 (some [⟨1, 0, some "t"⟩]) [⟨2, 3, none⟩] (by decide)
  · exact c9_cache_write_once_shape.2.2 [⟨1, 0, some "t"⟩] (by decide) (by decide)

/-! Supporting lemmas about the marker scanner and the roman grammar. -/

/-- Values the roman digit map can produce. -/
def isRomanVal (v : Int) : Prop :=
  v = 1 ∨ v = 5 ∨ v = 10 ∨ v = 50 ∨ v = 100 ∨ v = 500 ∨ v = 1000

theorem romanVal_isRomanVal (c : Char) (v : Int) (h : romanVal c = some v) :
    isRomanVal v := by
  unfold romanVal at h
  split at h <;> simp_all [isRomanVal]

theorem romanGo_le (cs : List Char) :
    ∀ prev acc n, (prev = 0 ∨ isRomanVal prev) → romanGo prev acc cs = some n →
      acc ≤ n := by
  induction cs with
  | nil =>
      intro prev acc n _ h
      simp only [romanGo, Option.some_inj] at h
      omega
  | cons c rest ih =>
      intro prev acc n hprev h
      simp only [romanGo] at h
      cases hv : romanVal c with
      | none => rw [hv] at h; cases h
      | some v =>
          rw [hv] at h
          have hval := romanVal_isRomanVal c v hv
          have hst : acc ≤ (if prev < v then acc + v - 2 * prev else acc + v) := by
            rcases hprev with rfl | (rfl | rfl | rfl | rfl | rfl | rfl | rfl) <;>
              rcases hval with rfl | rfl | rfl | rfl | rfl | rfl | rfl <;>
              split <;> omega
          exact le_trans hst (ih v _ n (Or.inr hval) h)

theorem roman_to_int_pos (s : String) (n : Int) (h : roman_to_int s = some n)
    (hne : s ≠ "") : 1 ≤ n := by
  rw [roman_to_int] at h
  cases hd : (strUpper s).data with
  | nil =>
      exfalso
      apply hne
      have hmap : s.data.map Char.toUpper = [] := hd
      have hdata : s.data = [] := List.map_eq_nil.1 hmap
      cases s with
      | mk d => cases hdata; rfl
  | cons c rest =>
      rw [hd] at h
      simp only [romanGo] at h
      cases hv : romanVal c with
      | none => rw [hv] at h; cases h
      | some v =>
          rw [hv] at h
          have hval := romanVal_isRomanVal c v hv
          have h2 : romanGo v (if (0 : Int) < v then 0 + v - 2 * 0 else 0 + v) rest
              = some n := h
          have h1 : (if (0 : Int) < v then 0 + v - 2 * 0 else 0 + v) = v := by
            split <;> omega
          rw [h1] at h2
          have hv1 : (1 : Int) ≤ v := by
            rcases hval with rfl | rfl | rfl | rfl | rfl | rfl | rfl <;> omega
          exact le_trans hv1 (romanGo_le rest v v n (Or.inr hval) h2)

theorem findChapterNum_sound :
    ∀ (ws : List String) (n : Int) (rest : List String),
      findChapterNum ws = some (n, rest) →
      ∃ ps w nxt, ws = ps ++ w :: nxt :: rest
        ∧ cleanWord w = "chapter" ∧ resolveNumeral (cleanTok nxt) = some n := by
  intro ws
  induction ws with
  | nil => intro n rest h; simp [findChapterNum] at h
  | cons a tail ih =>
      cases tail with
      | nil => intro n rest h; simp [findChapterNum] at h
      | cons b tail2 =>
          intro n rest h
          by_cases hw : cleanWord a = "chapter"
          · cases hres : resolveNumeral (cleanTok b) with
            | some m =>
                have hm : some (m, tail2) = some (n, rest) := by
                  rw [← h]; simp [findChapterNum, hw, hres]
                have hmn : m = n := by
                  injection hm with hm2
                  exact (congrArg Prod.fst hm2)
                have hrest : tail2 = rest := by
                  injection hm with hm2
                  exact (congrArg Prod.snd hm2)
                exact ⟨[], a, b, by rw [hrest]; rfl, hw, hmn ▸ hres⟩
            | none =>
                have hstep : findChapterNum (a :: b :: tail2)
                    = findChapterNum (b :: tail2) := by
                  simp [findChapterNum, hw, hres]
                obtain ⟨ps, w, nxt, hdec, hcw, hr⟩ := ih n rest (hstep ▸ h)
                exact ⟨a :: ps, w, nxt, by rw [List.cons_append, ← hdec], hcw, hr⟩
          · have hstep : findChapterNum (a :: b :: tail2) = findChapterNum (b :: tail2) := by
              simp [findChapterNum, hw]
            obtain ⟨ps, w, nxt, hdec, hcw, hr⟩ := ih n rest (hstep ▸ h)
            exact ⟨a :: ps, w, nxt, by rw [List.cons_append, ← hdec], hcw, hr⟩

theorem scanBlock_number_sound (et : Bool) (lines : List String)
    (nb : Option (List String)) (c : Candidate)
    (h : scanBlock et lines nb = .ok (some c)) :
    ∃ ps w nxt rest, pySplitWS (blockText lines) = ps ++ w :: nxt :: rest
      ∧ cleanWord w = "chapter" ∧ resolveNumeral (cleanTok nxt) = some c.number := by
  by_cases h3 : lines.length < 3
  · rw [scanBlock, if_pos h3] at h
    simp at h
  · rw [scanBlock, if_neg h3] at h
    by_cases hsub : strHasSub (strLower (blockText lines)) "chapter" = true
    · rw [if_pos hsub] at h
      cases hfind : findChapterNum (pySplitWS (blockText lines)) with
      | none => rw [hfind] at h; simp at h
      | some p =>
          rw [hfind] at h
          cases hts : srt_time_to_seconds
              (String.mk (takeUntilSep " --> ".data (lines.getD 1 "").data)) with
          | none => rw [hts] at h; simp at h
          | some t =>
              rw [hts] at h
              obtain ⟨ps, w, nxt, hdec, hcw, htok⟩ :=
                findChapterNum_sound _ p.1 p.2 hfind
              cases het : et with
              | true =>
                  rw [het] at h
                  simp only [if_pos] at h
                  have hcp : c.number = p.1 := by
                    have := congrArg (fun x => match x with
                      | Except.ok (some cc) => cc.number
                      | _ => p.1) h
                    simpa using this.symm
                  exact ⟨ps, w, nxt, p.2, hdec, hcw, by rw [hcp]; exact htok⟩
              | false =>
                  rw [het] at h
                  simp only [if_neg Bool.false_ne_true] at h
                  have hcp : c.number = p.1 := by
                    have := congrArg (fun x => match x with
                      | Except.ok (some cc) => cc.number
                      | _ => p.1) h
                    simpa using this.symm
                  exact ⟨ps, w, nxt, p.2, hdec, hcw, by rw [hcp]; exact htok⟩
    · rw [if_neg hsub] at h
      simp at h

theorem scanBlocks_number_sound (et : Bool) :
    ∀ (blocks : List (List String)) (c : Candidate), c ∈ scanBlocks et blocks →
      ∃ lines ∈ blocks, ∃ ps w nxt rest,
        pySplitWS (blockText lines) = ps ++ w :: nxt :: rest
        ∧ cleanWord w = "chapter" ∧ resolveNumeral (cleanTok nxt) = some c.number := by
  intro blocks
  induction blocks with
  | nil => intro c h; simp [scanBlocks] at h
  | cons lines rest ih =>
      intro c h
      rw [scanBlocks] at h
      cases hsb : scanBlock et lines rest.head? with
      | error e => rw [hsb] at h; simp at h
      | ok o =>
          cases o with
          | none =>
              rw [hsb] at h
              obtain ⟨ls, hls, hrest⟩ := ih c h
              exact ⟨ls, List.mem_cons_of_mem _ hls, hrest⟩
          | some c2 =>
              rw [hsb] at h
              rcases List.mem_cons.1 h with h1 | h2
              · exact ⟨lines, List.mem_cons_self _ _,
                  h1 ▸ scanBlock_number_sound et lines rest.head? c2 hsb⟩
              · obtain ⟨ls, hls, hrest⟩ := ih c h2
                exact ⟨ls, List.mem_cons_of_mem _ hls, hrest⟩

/-- C3 counterexample: in the cue "chapter foo chapter 5" the token after the
first "chapter" occurrence is "foo", which fails all three grammars, yet the
cue still yields a candidate (number 5, from the second occurrence) — so the
scanner does retry later "chapter" occurrences instead of yielding nothing. -/
theorem c3_scanner_retry_counterexample :
    resolveNumeral (cleanTok "foo") = none
    ∧ cleanWord "chapter" = "chapter"
    ∧ scanBlocks false [["1", "00:00:01,000 --> 00:00:02,000", "chapter foo chapter 5"]]
        = [⟨5, 1, none⟩] := by
  exact ⟨by decide, by decide, by decide⟩

/-- C3 amended: when the token after a "chapter" occurrence fails numeral
resolution the word scan continues with the following words, retrying later
"chapter" occurrences of the same cue; the scan yields a chapter number
exactly when some "chapter" word of the cue is followed by a token that one of
the three grammars resolves. -/
theorem c3_scanner_retry_amended :
    ∀ ws : List String,
      (findChapterNum ws).isSome = true ↔
        ∃ ps w nxt rest, ws = ps ++ w :: nxt :: rest
          ∧ cleanWord w = "chapter" ∧ (resolveNumeral (cleanTok nxt)).isSome = true := by
  intro ws
  induction ws with
  | nil =>
      constructor
      · intro h; simp [findChapterNum] at h
      · rintro ⟨ps, w, nxt, rest, h, -, -⟩
        have := congrArg List.length h
        simp at this
        omega
  | cons a tail ih =>
      cases tail with
      | nil =>
          constructor
          · intro h; simp [findChapterNum] at h
          · rintro ⟨ps, w, nxt, rest, h, -, -⟩
            have := congrArg List.length h
            simp at this
            omega
      | cons b tail2 =>
          by_cases hw : cleanWord a = "chapter"
          · cases hres : resolveNumeral (cleanTok b) with
            | some n =>
                constructor
                · intro _
                  exact ⟨[], a, b, tail2, rfl, hw, by simp [hres]⟩
                · intro _
                  simp [findChapterNum, hw, hres]
            | none =>
                have hstep : findChapterNum (a :: b :: tail2)
                    = findChapterNum (b :: tail2) := by
                  simp [findChapterNum, hw, hres]
                rw [hstep, ih]
                constructor
                · rintro ⟨ps, w, nxt, rest, h, hcw, hr⟩
                  exact ⟨a :: ps, w, nxt, rest, by rw [h]; rfl, hcw, hr⟩
                · rintro ⟨ps, w, nxt, rest, h, hcw, hr⟩
                  cases ps with
                  | nil =>
                      simp only [List.nil_append, List.cons.injEq] at h
                      obtain ⟨-, h2, -⟩ := h
                      rw [← h2, hres] at hr
                      simp at hr
                  | cons p ps2 =>
                      simp only [List.cons_append, List.cons.injEq] at h
                      exact ⟨ps2, w, nxt, rest, h.2, hcw, hr⟩
          · have hstep : findChapterNum (a :: b :: tail2) = findChapterNum (b :: tail2) := by
              simp [findChapterNum, hw]
            rw [hstep, ih]
            constructor
            · rintro ⟨ps, w, nxt, rest, h, hcw, hr⟩
              exact ⟨a :: ps, w, nxt, rest, by rw [h]; rfl, hcw, hr⟩
            · rintro ⟨ps, w, nxt, rest, h, hcw, hr⟩
              cases ps with
              | nil =>
                  simp only [List.nil_append, List.cons.injEq] at h
                  exact absurd (h.1 ▸ hcw) hw
              | cons p ps2 =>
                  simp only [List.cons_append, List.cons.injEq] at h
                  exact ⟨ps2, w, nxt, rest, h.2, hcw, hr⟩

/-- C10 counterexample: the cue "Chapter 0" produces a candidate whose chapter
number is 0, which is not a positive integer. -/
theorem c10_positive_number_counterexample :
    (scanBlocks false [["1", "00:00:05,000 --> 00:00:07,000", "Chapter 0"]]).map
        (fun c => c.number) = [0]
    ∧ ¬ ((1 : Int) ≤ 0) := by
  exact ⟨by decide, by decide⟩

/-- C10 amended: every candidate's number is the numeral resolver's output for
the cleaned token that follows a word cleaning to "chapter" in the word list
of the candidate's own cue, and numbers obtained through the roman grammar
from a nonempty token are at least 1; but the decimal grammar admits
non-positive announcements, so candidate numbers are not guaranteed positive
(the cue "Chapter 0" yields a candidate numbered 0). -/
theorem c10_candidate_numbers_amended :
    (∀ (et : Bool) (blocks : List (List String)) (c : Candidate),
        c ∈ scanBlocks et blocks →
        ∃ lines ∈ blocks, ∃ ps w nxt rest,
          pySplitWS (blockText lines) = ps ++ w :: nxt :: rest
          ∧ cleanWord w = "chapter" ∧ resolveNumeral (cleanTok nxt) = some c.number)
    ∧ (∀ (s : String) (n : Int), roman_to_int s = some n → s ≠ "" → 1 ≤ n) := by
  exact ⟨fun et blocks c h => scanBlocks_number_sound et blocks c h,
    fun s n h hne => roman_to_int_pos s n h hne⟩

/-- C10 witness: the amended theorem applied to the candidate produced from
the cue "Chapter 0" — whose number 0 is the resolver's output for the token
after the cue's "chapter" word — and to the roman numeral "IX". -/
theorem c10_candidate_numbers_amended_witness :
    (∃ lines ∈ [["1", "00:00:05,000 --> 00:00:07,000", "Chapter 0"]],
      ∃ ps w nxt rest, pySplitWS (blockText lines) = ps ++ w :: nxt :: rest
        ∧ cleanWord w = "chapter" ∧ resolveNumeral (cleanTok nxt) = some (0 : Int))
    ∧ (1 : Int) ≤ 9 := by
  constructor
  · exact c10_candidate_numbers_amended.1 false
      [["1", "00:00:05,000 --> 00:00:07,000", "Chapter 0"]] ⟨0, 5, none⟩ (by decide)
  · exact c10_candidate_numbers_amended.2 "IX" 9 (by decide) (by decide)

/-! Supporting lemmas about the segmentation plan. -/

theorem pyTrunc_eq_floor (q : ℚ) (h : 0 ≤ q) : pyTrunc q = ⌊q⌋ := by
  rw [pyTrunc, if_neg (not_lt.2 h)]

theorem pyTrunc_nonneg (q : ℚ) (h : 0 ≤ q) : 0 ≤ pyTrunc q := by
  rw [pyTrunc_eq_floor q h]
  exact Int.floor_nonneg.2 h

/-- Formula form of clipStart: the source's special case for start time 0 and
its general max(0, trunc - 500) agree with max(0, floor(st * 1000) - 500) for
every nonnegative start time. -/
theorem clipStart_formula (st : ℚ) (h : 0 ≤ st) :
    clipStart st = max 0 (⌊st * 1000⌋ - 500) := by
  rw [clipStart]
  split
  · rename_i h0
    rw [h0]
    have hz : ⌊(0 : ℚ) * 1000⌋ = 0 := by norm_num
    rw [hz]
    decide
  · rw [qMul_eq, pyTrunc_eq_floor _ (by positivity)]

theorem clipStart_le_trunc (st : ℚ) (h : 0 ≤ st) :
    clipStart st ≤ pyTrunc (qMul st 1000) := by
  have hx : 0 ≤ pyTrunc (qMul st 1000) := by
    apply pyTrunc_nonneg
    rw [qMul_eq]
    positivity
  rw [clipStart]
  split
  · exact hx
  · exact max_le hx (by omega)

theorem buildCutPlanGo_length (et : Bool) (total : ℚ) :
    ∀ l : List PChapter, (buildCutPlanGo et total l).length = l.length := by
  intro l
  induction l with
  | nil => rfl
  | cons c rest ih =>
      cases rest with
      | nil => rfl
      | cons nxt rest2 => simpa [buildCutPlanGo] using ih

theorem buildCutPlanGo_head_start (et : Bool) (total : ℚ) (p : PChapter)
    (l : List PChapter) :
    ((buildCutPlanGo et total (p :: l)).head?).map (fun s => s.start_ms)
      = some (clipStart p.start_time) := by
  cases l <;> rfl

theorem buildCutPlanGo_get?_start (et : Bool) (total : ℚ) :
    ∀ (l : List PChapter) (i : ℕ) (c : PChapter), l.get? i = some c →
      ((buildCutPlanGo et total l).get? i).map (fun s => s.start_ms)
        = some (clipStart c.start_time) := by
  intro l
  induction l with
  | nil => intro i c h; simp at h
  | cons a rest ih =>
      intro i c h
      cases rest with
      | nil =>
          cases i with
          | zero =>
              simp only [List.get?_cons_zero, Option.some_inj] at h
              subst h
              rfl
          | succ i => simp at h
      | cons b rest2 =>
          cases i with
          | zero =>
              simp only [List.get?_cons_zero, Option.some_inj] at h
              subst h
              rfl
          | succ i =>
              simp only [List.get?_cons_succ] at h
              simpa [buildCutPlanGo] using ih i c h

theorem buildCutPlanGo_getLast_end (et : Bool) (total : ℚ) :
    ∀ l : List PChapter, l ≠ [] →
      ((buildCutPlanGo et total l).getLast?).map (fun s => s.end_ms)
        = some (pyTrunc (qMul total 1000)) := by
  intro l
  induction l with
  | nil => intro h; exact absurd rfl h
  | cons a rest ih =>
      intro _
      cases rest with
      | nil => rfl
      | cons b rest2 =>
          obtain ⟨y, l2, hy⟩ : ∃ y l2, buildCutPlanGo et total (b :: rest2) = y :: l2 := by
            cases rest2 with
            | nil => exact ⟨_, _, rfl⟩
            | cons d rest3 => exact ⟨_, _, rfl⟩
          have hih := ih (by simp)
          rw [hy] at hih
          rw [show buildCutPlanGo et total (a :: b :: rest2)
              = segFor et a b.start_time :: buildCutPlanGo et total (b :: rest2) from rfl,
            hy, List.getLast?_cons_cons]
          exact hih

theorem buildCutPlanGo_cover (et : Bool) (total : ℚ) :
    ∀ (l : List PChapter) (c : PChapter),
      (∀ x ∈ c :: l, (0 : ℚ) ≤ x.start_time) →
      ∀ t : Int, clipStart c.start_time ≤ t → t < pyTrunc (qMul total 1000) →
      ∃ s ∈ buildCutPlanGo et total (c :: l), s.start_ms ≤ t ∧ t < s.end_ms := by
  intro l
  induction l with
  | nil =>
      intro c _ t h1 h2
      exact ⟨segFor et c total, by simp [buildCutPlanGo], h1, h2⟩
  | cons nxt rest ih =>
      intro c hpos t h1 h2
      by_cases hlt : t < pyTrunc (qMul nxt.start_time 1000)
      · exact ⟨segFor et c nxt.start_time, by simp [buildCutPlanGo], h1, hlt⟩
      · push_neg at hlt
        have hnn : (0 : ℚ) ≤ nxt.start_time := hpos nxt (by simp)
        obtain ⟨s, hs, hss⟩ := ih nxt (fun x hx => hpos x (List.mem_cons_of_mem _ hx)) t
          (le_trans (clipStart_le_trunc nxt.start_time hnn) hlt) h2
        refine ⟨s, ?_, hss⟩
        rw [show buildCutPlanGo et total (c :: nxt :: rest)
            = segFor et c nxt.start_time :: buildCutPlanGo et total (nxt :: rest) from rfl]
        exact List.mem_cons_of_mem _ hs

theorem processAux_start_mem (fl : Bool) :
    ∀ l : List Candidate, ∀ x ∈ processAux fl l,
      x.start_time = 0 ∨ ∃ c ∈ l, x.start_time = c.start_time := by
  intro l
  induction l generalizing fl with
  | nil => intro x hx; simp [processAux] at hx
  | cons a rest ih =>
      intro x hx
      rw [processAux] at hx
      rcases List.mem_cons.1 hx with h1 | h2
      · subst h1
        by_cases hf : fl = true
        · left; simp [hf]
        · right; exact ⟨a, by simp, by simp [hf]⟩
      · rcases ih false x h2 with h3 | ⟨c, hc, h4⟩
        · left; exact h3
        · right; exact ⟨c, List.mem_cons_of_mem _ hc, h4⟩

/-- C4 counterexample: canonical chapters at 0 s and 100 s with a 200 s total
give the segments [0, 100000) and [99500, 200000): the second segment starts
500 ms before the first one ends, so the cut plan's intervals overlap,
contradicting the claimed "no overlaps". -/
theorem c4_cutplan_overlap_counterexample :
    buildCutPlan false 200 (sequenceChapters [⟨1, 0, none⟩, ⟨2, 100, none⟩])
      = [⟨0, 100000, "001.mp3"⟩, ⟨99500, 200000, "002.mp3"⟩]
    ∧ (99500 : Int) < 100000 := by
  exact ⟨by decide, by decide⟩

/-- C4 amended: for every non-empty candidate list with nonnegative start
times and nonnegative total duration, the cut plan has exactly as many
segments as chapters, the last segment's end equals the total duration in
milliseconds, and the segments cover [0, total ms) with no gaps — but
consecutive segments may overlap by up to 500 ms because of the pre-roll, as
the counterexample shows. -/
theorem c4_cutplan_amended :
    ∀ (cands : List Candidate) (total : ℚ) (et : Bool),
      cands ≠ [] → (∀ x ∈ cands, (0 : ℚ) ≤ x.start_time) → 0 ≤ total →
      (buildCutPlan et total (sequenceChapters cands)).length = cands.length
      ∧ ((buildCutPlan et total (sequenceChapters cands)).getLast?).map (fun s => s.end_ms)
          = some ⌊total * 1000⌋
      ∧ (∀ t : Int, 0 ≤ t → t < ⌊total * 1000⌋ →
          ∃ s ∈ buildCutPlan et total (sequenceChapters cands),
            s.start_ms ≤ t ∧ t < s.end_ms) := by
  intro cands total et hne hpos htot
  have hq : pyTrunc (qMul total 1000) = ⌊total * 1000⌋ := by
    rw [qMul_eq, pyTrunc_eq_floor _ (by positivity)]
  have hsne : sequenceChapters cands ≠ [] := by
    intro h
    have hl := congrArg List.length h
    rw [sequenceChapters, process_chapter_gaps, processAux_length,
      (sortByNumber_perm cands).length_eq] at hl
    simp only [List.length_nil] at hl
    exact hne (List.length_eq_zero.1 hl)
  refine ⟨?_, ?_, ?_⟩
  · rw [buildCutPlan, buildCutPlanGo_length, sequenceChapters, process_chapter_gaps,
      processAux_length, (sortByNumber_perm cands).length_eq]
  · rw [buildCutPlan, buildCutPlanGo_getLast_end et total _ hsne, hq]
  · intro t ht htlt
    obtain ⟨a, rest, har⟩ : ∃ a rest, sortByNumber cands = a :: rest := by
      cases hs : sortByNumber cands with
      | nil => exact absurd hs (sortByNumber_ne_nil cands hne)
      | cons a rest => exact ⟨a, rest, rfl⟩
    have hseq : sequenceChapters cands
        = (⟨0, a.title.getD "", chapterLabel a rest.head?⟩ : PChapter)
          :: processAux false rest := by
      rw [sequenceChapters, process_chapter_gaps, har]
      rfl
    rw [buildCutPlan, hseq]
    have hposall : ∀ x ∈ (⟨0, a.title.getD "", chapterLabel a rest.head?⟩ : PChapter)
        :: processAux false rest, (0 : ℚ) ≤ x.start_time := by
      intro x hx
      rcases List.mem_cons.1 hx with h1 | h2
      · subst h1; exact le_refl 0
      · rcases processAux_start_mem false rest x h2 with h0 | ⟨c, hc, hcs⟩
        · rw [h0]
        · rw [hcs]
          apply hpos
          have hcmem : c ∈ sortByNumber cands := by
            rw [har]; exact List.mem_cons_of_mem _ hc
          exact (sortByNumber_perm cands).subset hcmem
    have hcs0 : clipStart (0 : ℚ) = 0 := by rw [clipStart, if_pos rfl]
    exact buildCutPlanGo_cover et total (processAux false rest) _ hposall t
      (by rw [hcs0] at *; exact hcs0 ▸ ht) (hq ▸ htlt)

/-- C4 witness: the amended properties instantiated at chapters [1 at 0 s,
2 at 100 s] with a 200 s total, with coverage checked at t = 150000 ms. -/
theorem c4_cutplan_amended_witness :
    (buildCutPlan false 200 (sequenceChapters [⟨1, 0, none⟩, ⟨2, 100, none⟩])).length = 2
    ∧ ((buildCutPlan false 200 (sequenceChapters [⟨1, 0, none⟩, ⟨2, 100, none⟩])).getLast?).map
        (fun s => s.end_ms) = some ⌊(200 : ℚ) * 1000⌋
    ∧ ∃ s ∈ buildCutPlan false 200 (sequenceChapters [⟨1, 0, none⟩, ⟨2, 100, none⟩]),
        s.start_ms ≤ 150000 ∧ (150000 : Int) < s.end_ms := by
  have hfl : ⌊(200 : ℚ) * 1000⌋ = 200000 := by
    have h2 : ((200 : ℚ) * 1000) = ((200000 : Int) : ℚ) := by norm_num
    rw [h2, Int.floor_intCast]
  have h := c4_cutplan_amended [⟨1, 0, none⟩, ⟨2, 100, none⟩] 200 false
    (by decide) (by decide) (by norm_num)
  exact ⟨h.1, h.2.1, h.2.2 150000 (by decide) (by rw [hfl]; decide)⟩

/-- C7: every cut-plan segment belonging to a non-first chapter starts at
max(0, floor(start_seconds * 1000) - 500), and the segment of the very first
chapter starts at 0. -/
theorem c7_preroll_clip_start :
    (∀ st : ℚ, 0 ≤ st → clipStart st = max 0 (⌊st * 1000⌋ - 500))
    ∧ (∀ (cands : List Candidate) (total : ℚ) (et : Bool), cands ≠ [] →
        ((buildCutPlan et total (sequenceChapters cands)).head?).map (fun s => s.start_ms)
          = some 0)
    ∧ (∀ (cands : List Candidate) (total : ℚ) (et : Bool) (i : ℕ) (c : Candidate),
        0 < i → 0 ≤ c.start_time → (sortByNumber cands).get? i = some c →
        ((buildCutPlan et total (sequenceChapters cands)).get? i).map (fun s => s.start_ms)
          = some (max 0 (⌊c.start_time * 1000⌋ - 500))) := by
  refine ⟨clipStart_formula, ?_, ?_⟩
  · intro cands total et hne
    obtain ⟨a, rest, har⟩ : ∃ a rest, sortByNumber cands = a :: rest := by
      cases hs : sortByNumber cands with
      | nil => exact absurd hs (sortByNumber_ne_nil cands hne)
      | cons a rest => exact ⟨a, rest, rfl⟩
    have hseq : sequenceChapters cands
        = (⟨0, a.title.getD "", chapterLabel a rest.head?⟩ : PChapter)
          :: processAux false rest := by
      rw [sequenceChapters, process_chapter_gaps, har]
      rfl
    rw [buildCutPlan, hseq, buildCutPlanGo_head_start]
    rw [show clipStart ((⟨0, a.title.getD "", chapterLabel a rest.head?⟩ : PChapter).start_time)
        = clipStart 0 from rfl, clipStart, if_pos rfl]
  · intro cands total et i c hi hcpos hget
    have hpc : (sequenceChapters cands).get? i
        = some ⟨c.start_time, c.title.getD "", chapterLabel c ((sortByNumber cands).get? (i + 1))⟩ := by
      rw [sequenceChapters, process_chapter_gaps, processAux_get? true _ i c hget]
      simp [hi.ne']
    rw [buildCutPlan, buildCutPlanGo_get?_start et total _ i _ hpc]
    rw [show clipStart ((⟨c.start_time, c.title.getD "",
        chapterLabel c ((sortByNumber cands).get? (i + 1))⟩ : PChapter).start_time)
      = clipStart c.start_time from rfl]
    rw [clipStart_formula c.start_time hcpos]

/-- C7 witness: in the cut plan for chapters [1 at 0 s, 2 at 100 s,
3 at 0.3 s], the first segment starts at 0, the chapter detected at 100 s
yields clip start 99500, and the chapter detected at 0.3 s yields clip start
0 (clamped). -/
theorem c7_preroll_clip_start_witness :
    ((buildCutPlan false 500 (sequenceChapters
        [⟨1, 0, none⟩, ⟨2, 100, none⟩, ⟨3, Rat.divInt 3 10, none⟩])).head?).map
        (fun s => s.start_ms) = some 0
    ∧ ((buildCutPlan false 500 (sequenceChapters
        [⟨1, 0, none⟩, ⟨2, 100, none⟩, ⟨3, Rat.divInt 3 10, none⟩])).get? 1).map
        (fun s => s.start_ms) = some 99500
    ∧ ((buildCutPlan false 500 (sequenceChapters
        [⟨1, 0, none⟩, ⟨2, 100, none⟩, ⟨3, Rat.divInt 3 10, none⟩])).get? 2).map
        (fun s => s.start_ms) = some 0 := by
  have h100 : max 0 (⌊(100 : ℚ) * 1000⌋ - 500) = 99500 := by
    have h2 : ((100 : ℚ) * 1000) = ((100000 : Int) : ℚ) := by norm_num
    rw [h2, Int.floor_intCast]
    decide
  have h03 : max 0 (⌊(Rat.divInt 3 10) * 1000⌋ - 500) = 0 := by
    have h2 : ((Rat.divInt 3 10) * 1000) = ((300 : Int) : ℚ) := by
      rw [Rat.divInt_eq_div]
      norm_num
    rw [h2, Int.floor_intCast]
    decide
  refine ⟨?_, ?_, ?_⟩
  · exact c7_preroll_clip_start.2.1
      [⟨1, 0, none⟩, ⟨2, 100, none⟩, ⟨3, Rat.divInt 3 10, none⟩] 500 false (by decide)
  · rw [c7_preroll_clip_start.2.2
      [⟨1, 0, none⟩, ⟨2, 100, none⟩, ⟨3, Rat.divInt 3 10, none⟩] 500 false 1 ⟨2, 100, none⟩
      (by decide) (by decide) (by decide)]
    rw [show (⟨2, 100, none⟩ : Candidate).start_time = (100 : ℚ) from rfl, h100]
  · rw [c7_preroll_clip_start.2.2
      [⟨1, 0, none⟩, ⟨2, 100, none⟩, ⟨3, Rat.divInt 3 10, none⟩] 500 false 2
      ⟨3, Rat.divInt 3 10, none⟩ (by decide) (by decide) (by decide)]
    rw [show (⟨3, Rat.divInt 3 10, none⟩ : Candidate).start_time = Rat.divInt 3 10 from rfl, h03]

end AudioSplit
